import Mathlib

/-!
Shallow embedding of the `citation-graph` repository (Rust), centred on
`src/client/src/main.rs` (the crawl loop, pruning and export),
`src/client/src/semantic_scholar.rs` / `src/src/semantic_scholar.rs`
(the batch fetch client) and `src/rate-limiter/src/main.rs` (the
rate-limiting proxy).

Modelling conventions:
* Rust `HashMap<String, StagingData>` becomes an association list with
  unique keys (`Staging`); iteration order of the hash map is
  unspecified in Rust, and nothing proved here depends on the order.
* Rust `HashSet` becomes `Finset` (structural equality, deduplicated).
* `f64` arithmetic in the expansion threshold
  `(depth as f64 * connectivity.ln()).exp().floor() as usize`
  is idealised over the real numbers `ℝ`.
* The HTTP layer is a response oracle: a function from attempt index
  (and, for the crawl, round index and requested ids) to responses.
-/

/-- `ProtoPaper` from `semantic_scholar.rs`: a paper stub, possibly
without an id, as deserialised from a reference list. -/
structure ProtoPaper where
  id : Option String
  title : String
  url : Option String
deriving DecidableEq, Repr

/-- `Paper` from `semantic_scholar.rs`: a fully resolved paper record
with a required id and a reference list. -/
structure Paper where
  title : String
  url : String
  id : String
  references : List ProtoPaper
deriving DecidableEq, Repr

/-- `impl From<Paper> for ProtoPaper`. -/
def Paper.toProto (p : Paper) : ProtoPaper :=
  { id := some p.id, title := p.title, url := some p.url }

/-- `StagingData` from `client/src/main.rs`. -/
structure StagingData where
  citation_count : Nat
  paper : Paper
deriving DecidableEq, Repr

/-- `type Staging = HashMap<String, StagingData>`, as an association
list with unique keys. -/
abbrev Staging : Type := List (String × StagingData)

/-- `Reference` from `client/src/main.rs`: a directed edge
referencer → referencee. -/
structure Reference where
  referencer : String
  referencee : String
deriving DecidableEq, Repr

/-- Lookup in the staging map (`HashMap::get`). -/
def stagingLookup (s : Staging) (k : String) : Option StagingData :=
  (List.find? (fun kv => kv.1 = k) s).map (fun kv => kv.2)

/-- `HashMap::insert`: replace the value at an existing key in place,
or append a fresh binding. -/
def stagingInsert (s : Staging) (k : String) (v : StagingData) : Staging :=
  if (s : List (String × StagingData)).any (fun kv => kv.1 = k) then
    s.map (fun kv => if kv.1 = k then (k, v) else kv)
  else
    s ++ [(k, v)]

/-- One step of `impl Extend<Paper> for Staging`: insert the paper
keyed by its id with `citation_count = 1`; if the id was already
present, the fresh entry keeps `max 1 old.citation_count` (the source
inserts the value `{citation_count: 1, paper}` and then overwrites the
count with `max(1, staged.citation_count)` of the displaced entry). -/
def stagingInsertPaper (s : Staging) (p : Paper) : Staging :=
  match stagingLookup s p.id with
  | some staged =>
      stagingInsert s p.id
        { citation_count := max 1 staged.citation_count, paper := p }
  | none => stagingInsert s p.id { citation_count := 1, paper := p }

/-- `impl Extend<Paper> for Staging`: the loop over the papers. -/
def stagingExtend (s : Staging) (papers : List Paper) : Staging :=
  papers.foldl stagingInsertPaper s

/-- The citation count currently recorded for a key. -/
def countOf (s : Staging) (k : String) : Option Nat :=
  (stagingLookup s k).map (fun d => d.citation_count)

/-- The keys of the staging map. -/
def stagingKeys (s : Staging) : List String :=
  (s : List (String × StagingData)).map (fun kv => kv.1)

/-- One step of the citation-increment loop: find the first staged
entry whose paper id equals `rid` and bump its count
(`staging.iter_mut().find(...)` followed by `citation_count += 1`). -/
def bumpFirst (rid : String) : List (String × StagingData) → List (String × StagingData)
  | [] => []
  | kv :: rest =>
      if kv.2.paper.id = rid then
        (kv.1, { kv.2 with citation_count := kv.2.citation_count + 1 }) :: rest
      else
        kv :: bumpFirst rid rest

/-- The `for reference in reference_increments` loop of
`client/src/main.rs` lines 147–157: for each reference stub with an id,
increment the citation count of the staged entry with that paper id. -/
def applyIncrements (s : Staging) (refs : List ProtoPaper) : Staging :=
  refs.foldl
    (fun acc r =>
      match r.id with
      | none => acc
      | some rid => bumpFirst rid acc)
    s

/-- `from_staging`: the paper stubs of every staged record
(`client/src/main.rs` lines 68–73). -/
def fromStaging (s : Staging) : Finset ProtoPaper :=
  ((s : List (String × StagingData)).map (fun kv => kv.2.paper.toProto)).toFinset

/-- Rust `str::replace` for a single-character pattern, on the
character-list view of a string. -/
def replaceChar (target : Char) (replacement : List Char) : List Char → List Char
  | [] => []
  | c :: rest =>
      (if c = target then replacement else [c]) ++ replaceChar target replacement rest

/-- `escape` from `client/src/main.rs` lines 63–66:
`s.replace('\\', "\\\\").replace('\"', "\\\"")`. -/
def escape (s : List Char) : List Char :=
  replaceChar '"' ['\\', '"'] (replaceChar '\\' ['\\', '\\'] s)

/-- Modelled from the spec: the per-character escaping map described in
section 6 — a double quote becomes backslash-quote, a backslash becomes
two backslashes, and every other character is unchanged. -/
def escapeSpec (s : List Char) : List Char :=
  s.foldr
    (fun c acc =>
      (if c = '"' then ['\\', '"'] else if c = '\\' then ['\\', '\\'] else [c]) ++ acc)
    []

/-- `MAX_PAPERS_PER_BATCH_CALL` from `semantic_scholar.rs`. -/
def MAX_PAPERS_PER_BATCH_CALL : Nat := 500

/-- The sub-batches issued by `SemanticScholar::get_paper_batch`: the
loop `for i in 0..max(len / MAX, 1)` slicing
`paper_ids[i*MAX .. min((1+i)*MAX, len)]`, after the empty-input
short-circuit. -/
def subBatches {α : Type} (paper_ids : List α) : List (List α) :=
  if paper_ids.isEmpty then []
  else
    (List.range (max (paper_ids.length / MAX_PAPERS_PER_BATCH_CALL) 1)).map
      (fun i =>
        let low := i * MAX_PAPERS_PER_BATCH_CALL
        let high := min ((1 + i) * MAX_PAPERS_PER_BATCH_CALL) paper_ids.length
        (paper_ids.drop low).take (high - low))

/-- An upstream HTTP outcome for one attempt: a transport error, or a
response with a status code and a body. -/
inductive S2Result where
  | err : S2Result
  | ok : Nat → String → S2Result
deriving DecidableEq, Repr

/-- The error classes of the client-side `Error` enum of
`src/src/semantic_scholar.rs` that matter here. -/
inductive ClientError where
  | Request : ClientError
  | RateLimit : ClientError
deriving DecidableEq, Repr

/-- The retry loop of `paper_batch` in `rate-limiter/src/main.rs`
(lines 84–111), recursing on the remaining tries out of `max_tries`:
a transport error maps to 500 (InternalServerError); a 429
(TooManyRequests) response is retried; any other 4xx/5xx status is
returned as-is immediately; a non-error status returns the body; an
exhausted loop returns 504 (GatewayTimeout). -/
def paperBatchFrom (respond : Nat → S2Result) (tries : Nat) : Nat → Except Nat String
  | 0 => Except.error 504
  | remaining + 1 =>
      match respond tries with
      | S2Result.err => Except.error 500
      | S2Result.ok status body =>
          if status = 429 then paperBatchFrom respond (tries + 1) remaining
          else if 400 ≤ status ∧ status < 600 then Except.error status
          else Except.ok body

/-- `paper_batch` of the rate-limiting proxy with `max_tries = 10`. -/
def paperBatchProxy (respond : Nat → S2Result) : Except Nat String :=
  paperBatchFrom respond 0 10

/-- The response disposition of `SemanticScholar::get_paper_batch` for
one sub-batch (`src/src/semantic_scholar.rs` lines 199–211): exactly
one attempt is consulted — a transport error surfaces as
`Error::Request` / `Error::Join`, a too-many-requests outcome surfaces
as `Error::RateLimit`, and otherwise the body is handed to the
deserializer. There is no retry loop in this function. -/
def getPaperBatchDisposition (respond : Nat → S2Result) : Except ClientError String :=
  match respond 0 with
  | S2Result.err => Except.error ClientError.Request
  | S2Result.ok status body =>
      if status = 429 then Except.error ClientError.RateLimit
      else Except.ok body

/-- The crawl state of `main` in `client/src/main.rs`: the staging map,
the committed node set and the committed edge set. -/
structure CrawlState where
  staging : Staging
  paper_list : Finset ProtoPaper
  reference_list : Finset Reference
deriving DecidableEq

/-- The ids selected for expansion by one round at a given threshold:
the staged entries whose `citation_count` is not below
`minimum_citations` (the loop `continue`s on
`citation_count < minimum_citations`, and pushes every other key onto
`remove_staged`). -/
def selectedIds (minCitations : Nat) (s : Staging) : List String :=
  ((s : List (String × StagingData)).filter
    (fun kv => ¬ kv.2.citation_count < minCitations)).map (fun kv => kv.1)

/-- The staged entries at or above the round's threshold (the ones the
loop expands and pushes onto `remove_staged`). -/
def crawlSelected (minCitations : Nat) (st : CrawlState) : Staging :=
  (st.staging : List (String × StagingData)).filter
    (fun kv => ¬ kv.2.citation_count < minCitations)

/-- The staged entries below the round's threshold (the ones the loop
`continue`s over, surviving the removal of the selected keys). -/
def crawlKept (minCitations : Nat) (st : CrawlState) : Staging :=
  (st.staging : List (String × StagingData)).filter
    (fun kv => kv.2.citation_count < minCitations)

/-- The reference ids of the selected entries, queued for fetching
(`batched_papers`). -/
def crawlBatched (minCitations : Nat) (st : CrawlState) : List String :=
  (crawlSelected minCitations st).flatMap (fun kv =>
    kv.2.paper.references.filterMap (fun r => r.id))

/-- The records fetched by one round: `get_paper_batch` on the batched
reference ids, with its empty-input short-circuit. -/
def crawlNew (fetch : List String → List Paper) (minCitations : Nat)
    (st : CrawlState) : List Paper :=
  if (crawlBatched minCitations st).isEmpty then []
  else fetch (crawlBatched minCitations st)

/-- One round of the crawl loop (`client/src/main.rs` lines 96–160),
parameterised by the round's fetch oracle and threshold:
partition staging by the threshold, commit the selected entries'
reference edges and id-bearing reference stubs, remove the selected
entries, fetch the referenced ids (with the empty-input short-circuit
of `get_paper_batch`), extend staging with the fetched records, and
apply the citation increments of the fetched records' references. -/
def crawlRound (fetch : List String → List Paper) (minCitations : Nat)
    (st : CrawlState) : CrawlState :=
  let selected := crawlSelected minCitations st
  let staged_reference_list :=
    (selected.flatMap (fun kv =>
      (kv.2.paper.references.filterMap (fun r => r.id)).map
        (fun rid => Reference.mk kv.1 rid))).toFinset
  let staged_paper_list :=
    (selected.flatMap (fun kv =>
      kv.2.paper.references.filter (fun r => r.id.isSome))).toFinset
  let new_papers := crawlNew fetch minCitations st
  let staging1 := stagingExtend (crawlKept minCitations st) new_papers
  let staging2 := applyIncrements staging1 (new_papers.flatMap (fun p => p.references))
  { staging := staging2,
    paper_list := st.paper_list ∪ staged_paper_list,
    reference_list := st.reference_list ∪ staged_reference_list }

/-- The crawl state after rounds `0, …, d-1` of the `for depth in
0..max_depth` loop, from a given initial state. -/
def crawlUpTo (fetch : Nat → List String → List Paper) (minCitations : Nat → Nat) :
    Nat → CrawlState → CrawlState
  | 0, st => st
  | d + 1, st => crawlRound (fetch d) (minCitations d) (crawlUpTo fetch minCitations d st)

/-- The pre-loop seeding of `main` (`client/src/main.rs` lines 89–93):
staging is extended with the seed batch and the committed node set is
initialised with `from_staging`. -/
def seedState (seed_papers : List Paper) : CrawlState :=
  let staging := stagingExtend ([] : Staging) seed_papers
  { staging := staging,
    paper_list := fromStaging staging,
    reference_list := (∅ : Finset Reference) }

/-- The expansion threshold computed by the crawl loop
(`client/src/main.rs` line 103):
`(depth as f64 * connectivity.ln()).exp().floor() as usize`, with `f64`
idealised over `ℝ`. -/
noncomputable def minimumCitations (connectivity : ℝ) (depth : Nat) : Nat :=
  ⌊Real.exp ((depth : ℝ) * Real.log connectivity)⌋₊

/-- The committed graph: the node set and the edge set. -/
structure Graph where
  nodes : Finset ProtoPaper
  edges : Finset Reference
deriving DecidableEq

/-- `incoming`: the number of committed edges whose `referencee` equals
this node's id (`Some(reference.referencee.clone()).as_deref() ==
paper.id()`). -/
def incomingCount (edges : Finset Reference) (p : ProtoPaper) : Nat :=
  (edges.filter (fun r => some r.referencee = p.id)).card

/-- `outgoing`: the number of committed edges whose `referencer` equals
this node's id. -/
def outgoingCount (edges : Finset Reference) (p : ProtoPaper) : Nat :=
  (edges.filter (fun r => some r.referencer = p.id)).card

/-- One pruning pass (`client/src/main.rs` lines 163–184): retain the
nodes for which not both degree counts are `≤ 1`, then retain the edges
both of whose endpoints name a surviving node's id. -/
def prunePass (g : Graph) : Graph :=
  let nodes := g.nodes.filter
    (fun p => ¬ (incomingCount g.edges p ≤ 1 ∧ outgoingCount g.edges p ≤ 1))
  let edges := g.edges.filter
    (fun r => (∃ p ∈ nodes, p.id = some r.referencer) ∧
              (∃ p ∈ nodes, p.id = some r.referencee))
  { nodes := nodes, edges := edges }

/-- `n` pruning passes. -/
def pruneN : Nat → Graph → Graph
  | 0, g => g
  | n + 1, g => prunePass (pruneN n g)

/-- The graph held in a crawl state. -/
def graphOfState (st : CrawlState) : Graph :=
  { nodes := st.paper_list, edges := st.reference_list }

/-- The complete pipeline of `main`: seed, `max_depth` crawl rounds
with thresholds `minimumCitations connectivity`, then 10 pruning
passes. -/
noncomputable def mainGraph (fetch : Nat → List String → List Paper) (connectivity : ℝ)
    (max_depth : Nat) (seed_papers : List Paper) : Graph :=
  pruneN 10 (graphOfState (crawlUpTo fetch (minimumCitations connectivity) max_depth
    (seedState seed_papers)))

theorem replaceChar_append (t : Char) (r : List Char) (a b : List Char) :
    replaceChar t r (a ++ b) = replaceChar t r a ++ replaceChar t r b := by
  induction a with
  | nil => rfl
  | cons c rest ih => simp [replaceChar, ih]

/-- C9: `escape` replaces every double quote with backslash-quote and
every backslash with two backslashes, changing no other character
(it agrees with the per-character escaping map `escapeSpec`), and on
the string `asdf "foo" \aaa` it yields `asdf \"foo\" \\aaa`. -/
theorem escape_agrees_with_spec_map :
    (∀ s : List Char, escape s = escapeSpec s) ∧
    escape ("asdf \"foo\" \\aaa".toList) = ("asdf \\\"foo\\\" \\\\aaa".toList) := by
  have hq : ('\\' : Char) ≠ '"' := by decide
  constructor
  · intro s
    induction s with
    | nil => rfl
    | cons c rest ih =>
      by_cases hb : c = '\\'
      · subst hb
        simp [escape, escapeSpec, replaceChar, replaceChar_append, hq] at ih ⊢
        exact ih
      · by_cases hqq : c = '"'
        · subst hqq
          simp [escape, escapeSpec, replaceChar, replaceChar_append] at ih ⊢
          exact ih
        · simp [escape, escapeSpec, replaceChar, replaceChar_append, hb, hqq] at ih ⊢
          exact ih
  · decide

set_option maxRecDepth 4000 in
/-- C4: evaluating the sub-batch chunking of `get_paper_batch` at an
input of 501 identifiers: a single sub-batch is issued, it holds only
the first 500 identifiers, and identifier 500 (the 501st) is in no
issued sub-batch even though it is in the input. -/
theorem subBatches_drop_501st_id :
    (subBatches (List.range 501)).length = 1 ∧
    (subBatches (List.range 501)).flatten = List.range 500 ∧
    500 ∉ (subBatches (List.range 501)).flatten ∧
    500 ∈ List.range 501 ∧
    ∀ b ∈ subBatches (List.range 501), b.length ≤ MAX_PAPERS_PER_BATCH_CALL := by
  have hflat : (subBatches (List.range 501)).flatten = List.range 500 := by decide
  refine ⟨by decide, hflat, ?_, by decide, by decide⟩
  rw [hflat]
  simp [List.mem_range]

/-- C8: each pruning pass is monotone — the surviving node set and edge
set are subsets of the previous ones, hence node and edge counts are
non-increasing pass over pass under `pruneN`. -/
theorem prunePass_monotone :
    ∀ g : Graph,
      ((prunePass g).nodes ⊆ g.nodes ∧ (prunePass g).edges ⊆ g.edges) ∧
      ∀ n : Nat,
        (pruneN (n + 1) g).nodes.card ≤ (pruneN n g).nodes.card ∧
        (pruneN (n + 1) g).edges.card ≤ (pruneN n g).edges.card := by
  have hsub : ∀ h : Graph, (prunePass h).nodes ⊆ h.nodes ∧ (prunePass h).edges ⊆ h.edges := by
    intro h
    exact ⟨Finset.filter_subset _ _, Finset.filter_subset _ _⟩
  intro g
  refine ⟨hsub g, ?_⟩
  intro n
  exact ⟨Finset.card_le_card (hsub (pruneN n g)).1, Finset.card_le_card (hsub (pruneN n g)).2⟩

/-- C3 (amended): a node whose id is absent always has computed
`incoming = outgoing = 0` — the id-equality match `some _ = none` never
succeeds — and is therefore removed by the degree rule on the very next
pruning pass, not exempted from it. -/
theorem idless_node_removed_by_degree_rule :
    ∀ (g : Graph) (p : ProtoPaper), p ∈ g.nodes → p.id = none →
      incomingCount g.edges p = 0 ∧ outgoingCount g.edges p = 0 ∧
      p ∉ (prunePass g).nodes := by
  intro g p hp hid
  have hin : incomingCount g.edges p = 0 := by
    unfold incomingCount
    rw [Finset.card_eq_zero, Finset.filter_eq_empty_iff]
    intro r _
    simp [hid]
  have hout : outgoingCount g.edges p = 0 := by
    unfold outgoingCount
    rw [Finset.card_eq_zero, Finset.filter_eq_empty_iff]
    intro r _
    simp [hid]
  refine ⟨hin, hout, ?_⟩
  intro hmem
  have hmem' : p ∈ g.nodes.filter
      (fun q => ¬ (incomingCount g.edges q ≤ 1 ∧ outgoingCount g.edges q ≤ 1)) := hmem
  rw [Finset.mem_filter] at hmem'
  exact hmem'.2 ⟨by rw [hin]; omega, by rw [hout]; omega⟩

/-- An id-less stub used for concrete pruning runs. -/
def idlessStub : ProtoPaper := { id := none, title := "stub", url := none }

/-- Witness for `idless_node_removed_by_degree_rule` at a concrete
graph. -/
theorem idless_node_removed_witness :
    idlessStub ∈ (Graph.mk {idlessStub} ∅).nodes ∧ idlessStub.id = none ∧
    (incomingCount (Graph.mk {idlessStub} ∅).edges idlessStub = 0 ∧
     outgoingCount (Graph.mk {idlessStub} ∅).edges idlessStub = 0 ∧
     idlessStub ∉ (prunePass (Graph.mk {idlessStub} ∅)).nodes) :=
  ⟨by decide, rfl, idless_node_removed_by_degree_rule (Graph.mk {idlessStub} ∅) idlessStub
    (by decide) rfl⟩

/-- A two-node graph with one self-edge, refuting the claimed exemption
of id-less nodes from the degree rule. -/
def counterexampleGraphC3 : Graph :=
  { nodes := {⟨none, "s", none⟩, ⟨some "a", "ta", none⟩},
    edges := {⟨"a", "a"⟩} }

/-- C3 counterexample: the id-less node of `counterexampleGraphC3` has
`incoming = outgoing = 0`, yet one pruning pass removes it via the
degree rule — contradicting the claim that such nodes are never removed
by that rule. -/
theorem idless_node_exemption_refuted :
    (⟨none, "s", none⟩ : ProtoPaper) ∈ counterexampleGraphC3.nodes ∧
    incomingCount counterexampleGraphC3.edges ⟨none, "s", none⟩ = 0 ∧
    outgoingCount counterexampleGraphC3.edges ⟨none, "s", none⟩ = 0 ∧
    (⟨none, "s", none⟩ : ProtoPaper) ∉ (prunePass counterexampleGraphC3).nodes := by
  refine ⟨by decide, by decide, by decide, by decide⟩

theorem paperBatchFrom_all_tooMany (respond : Nat → S2Result) :
    ∀ remaining tries : Nat,
      (∀ i : Nat, tries ≤ i → i < tries + remaining → ∃ b, respond i = S2Result.ok 429 b) →
      paperBatchFrom respond tries remaining = Except.error 504 := by
  intro remaining
  induction remaining with
  | zero => intro tries _; rfl
  | succ n ih =>
    intro tries h
    obtain ⟨b, hb⟩ := h tries (le_refl tries) (by omega)
    unfold paperBatchFrom
    rw [hb]
    simp only [if_pos rfl]
    exact ih (tries + 1) (fun i h1 h2 => h i (by omega) (by omega))

/-- C5 (amended): the retry-on-429 behaviour lives in the rate-limiting
proxy, not in `get_paper_batch`. `get_paper_batch` consults exactly one
attempt per sub-batch (its disposition depends only on attempt 0) and
surfaces a too-many-requests outcome as `RateLimit` immediately; the
proxy's `paper_batch` retries a 429 up to 10 attempts and then surfaces
504 (GatewayTimeout), while any other 4xx/5xx status is surfaced
immediately without retry. -/
theorem rate_limit_retry_is_in_proxy :
    (∀ respond respond' : Nat → S2Result, respond 0 = respond' 0 →
        getPaperBatchDisposition respond = getPaperBatchDisposition respond') ∧
    (∀ (respond : Nat → S2Result) (body : String), respond 0 = S2Result.ok 429 body →
        getPaperBatchDisposition respond = Except.error ClientError.RateLimit) ∧
    (∀ respond : Nat → S2Result,
        (∀ i : Nat, i < 10 → ∃ b, respond i = S2Result.ok 429 b) →
        paperBatchProxy respond = Except.error 504) ∧
    (∀ (respond : Nat → S2Result) (status : Nat) (body : String),
        respond 0 = S2Result.ok status body → status ≠ 429 →
        400 ≤ status → status < 600 →
        paperBatchProxy respond = Except.error status) := by
  refine ⟨?_, ?_, ?_, ?_⟩
  · intro r r' h
    unfold getPaperBatchDisposition
    rw [h]
  · intro r body h
    unfold getPaperBatchDisposition
    rw [h]
    simp
  · intro r h
    exact paperBatchFrom_all_tooMany r 10 0 (fun i _ h2 => h i (by omega))
  · intro r status body h hne h4 h6
    unfold paperBatchProxy paperBatchFrom
    rw [h]
    simp only []
    rw [if_neg hne, if_pos ⟨h4, h6⟩]

/-- A response oracle that is rate-limited on the first attempt and
would succeed on the second. -/
def respondLimitedOnce : Nat → S2Result := fun n =>
  if n = 0 then S2Result.ok 429 "" else S2Result.ok 200 "papers"

/-- C5 counterexample: with an upstream that answers 429 once and then
succeeds, `get_paper_batch` surfaces a rate-limit error immediately —
it performs no retry — whereas the rate-limiting proxy (which does own
the retry loop) succeeds on the same oracle. -/
theorem get_paper_batch_does_not_retry :
    getPaperBatchDisposition respondLimitedOnce = Except.error ClientError.RateLimit ∧
    paperBatchProxy respondLimitedOnce = Except.ok "papers" :=
  ⟨rfl, rfl⟩

/-- Witness for `rate_limit_retry_is_in_proxy` at concrete oracles. -/
theorem rate_limit_retry_witness :
    paperBatchProxy (fun _ => S2Result.ok 429 "") = Except.error 504 ∧
    paperBatchProxy (fun n => if n = 0 then S2Result.ok 500 "" else S2Result.ok 200 "")
      = Except.error 500 ∧
    getPaperBatchDisposition (fun n => if n = 0 then S2Result.ok 429 "x" else S2Result.err)
      = Except.error ClientError.RateLimit := by
  refine ⟨?_, ?_, ?_⟩
  · exact rate_limit_retry_is_in_proxy.2.2.1 _ (fun i _ => ⟨"", rfl⟩)
  · exact rate_limit_retry_is_in_proxy.2.2.2 _ 500 "" rfl (by decide) (by decide) (by decide)
  · exact rate_limit_retry_is_in_proxy.2.1 _ "x" rfl

theorem minimumCitations_eq_floor_pow (c : ℝ) (hc : 0 < c) (d : Nat) :
    minimumCitations c d = ⌊c ^ d⌋₊ := by
  unfold minimumCitations
  rw [Real.exp_nat_mul, Real.exp_log hc]

theorem minimumCitations_round_zero (c : ℝ) (hc : 0 < c) : minimumCitations c 0 = 1 := by
  rw [minimumCitations_eq_floor_pow c hc, pow_zero, Nat.floor_one]

/-- C6: for every connectivity factor `c > 1` the threshold of round
`r` equals `⌊c ^ r⌋₊`; at round 0 it equals 1; it is non-decreasing in
the round; and with threshold 1 every staged entry whose citation count
is at least 1 is selected for expansion. -/
theorem threshold_floor_pow_monotone :
    ∀ c : ℝ, 1 < c →
      (∀ r : Nat, minimumCitations c r = ⌊c ^ r⌋₊) ∧
      minimumCitations c 0 = 1 ∧
      (∀ r s : Nat, r ≤ s → minimumCitations c r ≤ minimumCitations c s) ∧
      (∀ (st : Staging) (kv : String × StagingData), kv ∈ st →
        1 ≤ kv.2.citation_count → kv.1 ∈ selectedIds (minimumCitations c 0) st) := by
  intro c hc
  have hc0 : (0 : ℝ) < c := lt_trans one_pos hc
  have heq := minimumCitations_eq_floor_pow c hc0
  have h0 : minimumCitations c 0 = 1 := minimumCitations_round_zero c hc0
  refine ⟨heq, h0, ?_, ?_⟩
  · intro r s hrs
    rw [heq r, heq s]
    exact Nat.floor_le_floor (pow_le_pow_right₀ (le_of_lt hc) hrs)
  · intro st kv hkv hcount
    rw [h0]
    unfold selectedIds
    refine List.mem_map.mpr ⟨kv, List.mem_filter.mpr ⟨hkv, ?_⟩, rfl⟩
    simp only [decide_eq_true_eq]
    omega

/-- A concrete staged record used for witnesses. -/
def samplePaper : Paper := { title := "t", url := "u", id := "a", references := [] }

/-- Witness for `threshold_floor_pow_monotone` at `c = 2` and a
one-entry staging map. -/
theorem threshold_floor_pow_witness :
    (1 : ℝ) < 2 ∧ minimumCitations 2 0 = 1 ∧ minimumCitations 2 0 ≤ minimumCitations 2 1 ∧
    "a" ∈ selectedIds (minimumCitations 2 0)
      [("a", { citation_count := 1, paper := samplePaper })] := by
  have h := threshold_floor_pow_monotone 2 (by norm_num)
  refine ⟨by norm_num, h.2.1, h.2.2.1 0 1 (by omega), ?_⟩
  exact h.2.2.2 [("a", { citation_count := 1, paper := samplePaper })]
    ("a", { citation_count := 1, paper := samplePaper }) (by simp) (by norm_num)

/-- The seed paper of end-to-end scenario 1: `P1` referencing `R1` and
`R2`. -/
def paperP1 : Paper :=
  { title := "t1", url := "u1", id := "P1",
    references := [ { id := some "R1", title := "tR1", url := some "uR1" },
                    { id := some "R2", title := "tR2", url := some "uR2" } ] }

/-- The resolved record for `R1`, with no further references. -/
def paperR1 : Paper := { title := "tR1", url := "uR1", id := "R1", references := [] }

/-- The resolved record for `R2`, with no further references. -/
def paperR2 : Paper := { title := "tR2", url := "uR2", id := "R2", references := [] }

/-- The fetch oracle of scenario 1: resolves `R1` and `R2`, nothing
else. -/
def fetchScenario1 : Nat → List String → List Paper := fun _ ids =>
  (if "R1" ∈ ids then [paperR1] else []) ++ (if "R2" ∈ ids then [paperR2] else [])

/-- C2 counterexample: in scenario 1 the seed paper `P1` IS committed
as a node — `from_staging` converts the whole seed batch into committed
stubs before the loop, so `P1.toProto` is in the committed node set
both at seeding time and after round 0 — refuting "P1 is never itself
committed as a node in this path". -/
theorem seed_paper_is_committed :
    Paper.toProto paperP1 ∈ (seedState [paperP1]).paper_list ∧
    Paper.toProto paperP1 ∈
      (crawlUpTo fetchScenario1 (minimumCitations (13/4)) 1 (seedState [paperP1])).paper_list := by
  have h0 : minimumCitations ((13:ℝ)/4) 0 = 1 := minimumCitations_round_zero _ (by norm_num)
  constructor
  · decide
  · simp only [crawlUpTo]
    rw [h0]
    decide

/-- C2 (amended): end-to-end scenario 1 with connectivity 13/4 and one
round: seeding commits the seed batch itself as nodes (so `P1.toProto`
is a committed node); round 0 (threshold 1) selects `P1` and commits
nodes `{R1, R2}` and edges `{P1→R1, P1→R2}`; the ten pruning passes
then empty the graph (R1 and R2 fall to the degree rule on pass 1, P1
on pass 2, and the edges to the consistency rule). -/
theorem scenario1_run :
    (seedState [paperP1]).paper_list = {Paper.toProto paperP1} ∧
    (crawlUpTo fetchScenario1 (minimumCitations (13/4)) 1 (seedState [paperP1])).paper_list
      = {Paper.toProto paperP1,
         { id := some "R1", title := "tR1", url := some "uR1" },
         { id := some "R2", title := "tR2", url := some "uR2" }} ∧
    (crawlUpTo fetchScenario1 (minimumCitations (13/4)) 1 (seedState [paperP1])).reference_list
      = {Reference.mk "P1" "R1", Reference.mk "P1" "R2"} ∧
    mainGraph fetchScenario1 (13/4) 1 [paperP1] = Graph.mk ∅ ∅ := by
  have h0 : minimumCitations ((13:ℝ)/4) 0 = 1 := minimumCitations_round_zero _ (by norm_num)
  refine ⟨by decide, ?_, ?_, ?_⟩
  · simp only [crawlUpTo]
    rw [h0]
    decide
  · simp only [crawlUpTo]
    rw [h0]
    decide
  · unfold mainGraph
    simp only [crawlUpTo]
    rw [h0]
    decide

/-- The self-citing paper used to refute one-shot expansion. -/
def paperSelfCite : Paper :=
  { title := "ts", url := "us", id := "p1",
    references := [ { id := some "p1", title := "ts", url := some "us" } ] }

/-- A fetch oracle that resolves `p1` to its (self-citing) record. -/
def fetchSelfCite : Nat → List String → List Paper := fun _ ids =>
  if "p1" ∈ ids then [paperSelfCite] else []

/-- C1 counterexample: with connectivity 3/2 a self-citing paper `p1`
is selected for expansion in round 0, removed from staging, re-staged
by round 0's fetch of its own references, and selected again in round
1 — the same id appears in the selected sets of two different rounds of
one crawl. -/
theorem selected_id_reappears :
    "p1" ∈ selectedIds (minimumCitations (3/2) 0)
      ((crawlUpTo fetchSelfCite (minimumCitations (3/2)) 0 (seedState [paperSelfCite])).staging) ∧
    "p1" ∈ selectedIds (minimumCitations (3/2) 1)
      ((crawlUpTo fetchSelfCite (minimumCitations (3/2)) 1 (seedState [paperSelfCite])).staging) := by
  have h0 : minimumCitations ((3:ℝ)/2) 0 = 1 := minimumCitations_round_zero _ (by norm_num)
  have h1 : minimumCitations ((3:ℝ)/2) 1 = 1 := by
    rw [minimumCitations_eq_floor_pow _ (by norm_num), pow_one]
    rw [Nat.floor_eq_iff (by norm_num)]
    norm_num
  constructor
  · simp only [crawlUpTo]
    rw [h0]
    decide
  · simp only [crawlUpTo]
    rw [h0, h1]
    decide

theorem stagingExtend_cons (s : Staging) (p : Paper) (rest : List Paper) :
    stagingExtend s (p :: rest) = stagingExtend (stagingInsertPaper s p) rest := rfl

theorem applyIncrements_cons (s : Staging) (r : ProtoPaper) (rest : List ProtoPaper) :
    applyIncrements s (r :: rest) =
      applyIncrements (match r.id with | none => s | some rid => bumpFirst rid s) rest := rfl

theorem find_map_replace (k k' : String) (v : StagingData) (s : List (String × StagingData)) :
    List.find? (fun kv => kv.1 = k')
      (s.map (fun kv => if kv.1 = k then (k, v) else kv)) =
      if k' = k then (if s.any (fun kv => kv.1 = k) then some (k, v) else none)
      else List.find? (fun kv => kv.1 = k') s := by
  induction s with
  | nil => by_cases h : k' = k <;> simp [h]
  | cons kv rest ih =>
    by_cases hk : kv.1 = k
    · by_cases h' : k' = k
      · subst h'
        simp [List.find?_cons, List.any_cons, hk, ih]
      · have h'' : ¬ k = k' := fun h => h' h.symm
        have hkk' : ¬ kv.1 = k' := by rw [hk]; exact h''
        simp [List.find?_cons, List.any_cons, hk, h', h'', hkk', ih]
    · by_cases h' : k' = k
      · subst h'
        simp only [List.map_cons, if_neg hk]
        rw [List.find?_cons_of_neg _ (by simpa using hk)]
        rw [ih]
        simp only [eq_self_iff_true, if_true, List.any_cons]
        simp only [decide_eq_false hk, Bool.false_or]
      · by_cases hh : kv.1 = k'
        · simp [List.find?_cons, List.any_cons, hk, h', hh]
        · simp [List.find?_cons, List.any_cons, hk, h', hh, ih]

theorem stagingLookup_insert (s : Staging) (k k' : String) (v : StagingData) :
    stagingLookup (stagingInsert s k v) k' =
      if k' = k then some v else stagingLookup s k' := by
  unfold stagingLookup stagingInsert
  by_cases hany : (s.any (fun kv => kv.1 = k)) = true
  · rw [if_pos hany, find_map_replace]
    by_cases h' : k' = k <;> simp [h', hany]
  · rw [if_neg hany, List.find?_append]
    by_cases h' : k' = k
    · subst h'
      have hnone : List.find? (fun kv => kv.1 = k') s = none := by
        rw [List.find?_eq_none]
        intro kv hkv
        simp only [decide_eq_true_eq]
        intro hc
        exact hany (List.any_eq_true.mpr ⟨kv, hkv, by simp [hc]⟩)
      rw [hnone]
      simp [List.find?_cons]
    · have h'' : ¬ k = k' := fun h => h' h.symm
      by_cases hfind : (List.find? (fun kv => kv.1 = k') s).isSome
      · obtain ⟨kv, hkv⟩ := Option.isSome_iff_exists.mp hfind
        rw [hkv]
        simp [h']
      · rw [Option.not_isSome_iff_eq_none.mp hfind]
        simp [List.find?_cons, h', h'']

theorem stagingKeys_map_replace (k : String) (v : StagingData)
    (s : List (String × StagingData)) :
    stagingKeys (s.map (fun kv => if kv.1 = k then (k, v) else kv)) = stagingKeys s := by
  unfold stagingKeys
  rw [List.map_map]
  apply List.map_congr_left
  intro kv _
  by_cases h : kv.1 = k <;> simp [h]

theorem stagingKeys_insert (s : Staging) (k : String) (v : StagingData) :
    stagingKeys (stagingInsert s k v) =
      if (s.any (fun kv => kv.1 = k)) = true then stagingKeys s else stagingKeys s ++ [k] := by
  unfold stagingInsert
  by_cases hany : (s.any (fun kv => kv.1 = k)) = true
  · rw [if_pos hany, if_pos hany, stagingKeys_map_replace]
  · rw [if_neg hany, if_neg hany]
    unfold stagingKeys
    simp

theorem not_mem_keys_of_not_any (s : Staging) (k : String)
    (hany : ¬ (s.any (fun kv => kv.1 = k)) = true) : k ∉ stagingKeys s := by
  intro hmem
  apply hany
  rw [List.any_eq_true]
  obtain ⟨kv, hkv, hfst⟩ := List.mem_map.mp hmem
  exact ⟨kv, hkv, by simp [hfst]⟩

theorem nodup_keys_insert (s : Staging) (k : String) (v : StagingData)
    (h : (stagingKeys s).Nodup) : (stagingKeys (stagingInsert s k v)).Nodup := by
  rw [stagingKeys_insert]
  by_cases hany : (s.any (fun kv => kv.1 = k)) = true
  · rw [if_pos hany]; exact h
  · rw [if_neg hany]
    rw [List.nodup_append]
    refine ⟨h, List.nodup_singleton k, ?_⟩
    intro a ha hb
    have hak : a = k := by simpa using hb
    subst hak
    exact not_mem_keys_of_not_any s a hany ha

theorem stagingKeys_mem_insert (s : Staging) (k : String) (v : StagingData) (p : String)
    (h : p ∈ stagingKeys (stagingInsert s k v)) : p ∈ stagingKeys s ∨ p = k := by
  rw [stagingKeys_insert] at h
  by_cases hany : (s.any (fun kv => kv.1 = k)) = true
  · rw [if_pos hany] at h; exact Or.inl h
  · rw [if_neg hany] at h
    rcases List.mem_append.mp h with h1 | h1
    · exact Or.inl h1
    · exact Or.inr (by simpa using h1)

theorem stagingKeys_mem_insertPaper (s : Staging) (q : Paper) (p : String)
    (h : p ∈ stagingKeys (stagingInsertPaper s q)) : p ∈ stagingKeys s ∨ p = q.id := by
  unfold stagingInsertPaper at h
  cases hl : stagingLookup s q.id <;> rw [hl] at h
  · exact stagingKeys_mem_insert _ _ _ _ h
  · exact stagingKeys_mem_insert _ _ _ _ h

theorem nodup_keys_insertPaper (s : Staging) (q : Paper)
    (h : (stagingKeys s).Nodup) : (stagingKeys (stagingInsertPaper s q)).Nodup := by
  unfold stagingInsertPaper
  cases stagingLookup s q.id
  · exact nodup_keys_insert _ _ _ h
  · exact nodup_keys_insert _ _ _ h

theorem nodup_keys_extend (recs : List Paper) :
    ∀ s : Staging, (stagingKeys s).Nodup → (stagingKeys (stagingExtend s recs)).Nodup := by
  induction recs with
  | nil => intro s h; exact h
  | cons r rest ih =>
    intro s h
    rw [stagingExtend_cons]
    exact ih _ (nodup_keys_insertPaper s r h)

theorem stagingKeys_mem_extend (recs : List Paper) :
    ∀ (s : Staging) (p : String), p ∈ stagingKeys (stagingExtend s recs) →
      p ∈ stagingKeys s ∨ ∃ q ∈ recs, q.id = p := by
  induction recs with
  | nil => intro s p h; exact Or.inl h
  | cons r rest ih =>
    intro s p h
    rw [stagingExtend_cons] at h
    rcases ih _ p h with h1 | h1
    · rcases stagingKeys_mem_insertPaper s r p h1 with h2 | h2
      · exact Or.inl h2
      · exact Or.inr ⟨r, by simp, h2.symm⟩
    · obtain ⟨q, hq, hqp⟩ := h1
      exact Or.inr ⟨q, by simp [hq], hqp⟩

theorem stagingKeys_bumpFirst (rid : String) (s : List (String × StagingData)) :
    stagingKeys (bumpFirst rid s) = stagingKeys s := by
  induction s with
  | nil => rfl
  | cons kv rest ih =>
    unfold bumpFirst
    by_cases h : kv.2.paper.id = rid
    · rw [if_pos h]
      unfold stagingKeys at *
      simp
    · rw [if_neg h]
      unfold stagingKeys at *
      simp [ih]

theorem stagingKeys_applyIncrements (refs : List ProtoPaper) :
    ∀ s : Staging, stagingKeys (applyIncrements s refs) = stagingKeys s := by
  induction refs with
  | nil => intro s; rfl
  | cons r rest ih =>
    intro s
    rw [applyIncrements_cons]
    cases hr : r.id with
    | none => simp only [hr]; exact ih s
    | some rid =>
      simp only [hr]
      rw [ih (bumpFirst rid s), stagingKeys_bumpFirst]

theorem countOf_cons (kv : String × StagingData) (s : Staging) (k : String) :
    countOf (kv :: s) k = if kv.1 = k then some kv.2.citation_count else countOf s k := by
  unfold countOf stagingLookup
  by_cases h : kv.1 = k
  · rw [List.find?_cons_of_pos _ (by simpa using h), if_pos h]
    rfl
  · rw [List.find?_cons_of_neg _ (by simpa using h), if_neg h]

theorem countOf_insertPaper_of_ne (s : Staging) (p : Paper) (k : String) (hk : p.id ≠ k) :
    countOf (stagingInsertPaper s p) k = countOf s k := by
  unfold stagingInsertPaper
  cases hl : stagingLookup s p.id
  · unfold countOf
    rw [stagingLookup_insert, if_neg (Ne.symm hk)]
  · unfold countOf
    rw [stagingLookup_insert, if_neg (Ne.symm hk)]

theorem countOf_insertPaper_fresh (s : Staging) (p : Paper)
    (h : stagingLookup s p.id = none) :
    countOf (stagingInsertPaper s p) p.id = some 1 := by
  unfold stagingInsertPaper
  rw [h]
  unfold countOf
  rw [stagingLookup_insert, if_pos rfl]
  rfl

theorem countOf_insertPaper_of_eq_one (s : Staging) (p : Paper)
    (h : countOf s p.id = some 1) :
    countOf (stagingInsertPaper s p) p.id = some 1 := by
  unfold stagingInsertPaper
  cases hl : stagingLookup s p.id with
  | none =>
    unfold countOf at h
    rw [hl] at h
    simp at h
  | some staged =>
    have hc : staged.citation_count = 1 := by
      unfold countOf at h
      rw [hl] at h
      simpa using h
    unfold countOf
    rw [stagingLookup_insert, if_pos rfl]
    simp [hc]

theorem countOf_extend_of_one (recs : List Paper) :
    ∀ (s : Staging) (k : String), countOf s k = some 1 →
      countOf (stagingExtend s recs) k = some 1 := by
  induction recs with
  | nil => intro s k h; exact h
  | cons r rest ih =>
    intro s k h
    rw [stagingExtend_cons]
    apply ih
    by_cases hk : r.id = k
    · subst hk
      exact countOf_insertPaper_of_eq_one s r h
    · rw [countOf_insertPaper_of_ne s r k hk]
      exact h

/-- The value-key agreement invariant of the staging map: every staged
entry's paper id equals its key. -/
def PaperIdsMatch (s : Staging) : Prop :=
  ∀ kv ∈ s, (kv : String × StagingData).2.paper.id = kv.1

theorem paperIdsMatch_insert (s : Staging) (k : String) (v : StagingData)
    (hWF : PaperIdsMatch s) (hv : v.paper.id = k) :
    PaperIdsMatch (stagingInsert s k v) := by
  intro kv hkv
  unfold stagingInsert at hkv
  by_cases hany : (s.any (fun kvv => kvv.1 = k)) = true
  · rw [if_pos hany] at hkv
    obtain ⟨kv0, hkv0, hfkv⟩ := List.mem_map.mp hkv
    by_cases h0 : kv0.1 = k
    · rw [if_pos h0] at hfkv
      rw [← hfkv]
      exact hv
    · rw [if_neg h0] at hfkv
      rw [← hfkv]
      exact hWF kv0 hkv0
  · rw [if_neg hany] at hkv
    rcases List.mem_append.mp hkv with h1 | h1
    · exact hWF kv h1
    · have : kv = (k, v) := by simpa using h1
      rw [this]
      exact hv

theorem paperIdsMatch_insertPaper (s : Staging) (p : Paper)
    (hWF : PaperIdsMatch s) : PaperIdsMatch (stagingInsertPaper s p) := by
  unfold stagingInsertPaper
  cases stagingLookup s p.id
  · exact paperIdsMatch_insert s p.id _ hWF rfl
  · exact paperIdsMatch_insert s p.id _ hWF rfl

theorem paperIdsMatch_extend (recs : List Paper) :
    ∀ s : Staging, PaperIdsMatch s → PaperIdsMatch (stagingExtend s recs) := by
  induction recs with
  | nil => intro s h; exact h
  | cons r rest ih =>
    intro s h
    rw [stagingExtend_cons]
    exact ih _ (paperIdsMatch_insertPaper s r h)

theorem paperIdsMatch_bumpFirst (rid : String) :
    ∀ s : Staging, PaperIdsMatch s → PaperIdsMatch (bumpFirst rid s) := by
  intro s
  induction s with
  | nil => intro _ kv hkv; simp [bumpFirst] at hkv
  | cons kv0 rest ih =>
    intro h kv hkv
    unfold bumpFirst at hkv
    by_cases h0 : kv0.2.paper.id = rid
    · rw [if_pos h0] at hkv
      rcases List.mem_cons.mp hkv with h1 | h1
      · rw [h1]
        exact h kv0 (List.mem_cons_self kv0 rest)
      · exact h kv (List.mem_cons_of_mem kv0 h1)
    · rw [if_neg h0] at hkv
      rcases List.mem_cons.mp hkv with h1 | h1
      · rw [h1]
        exact h kv0 (List.mem_cons_self kv0 rest)
      · exact ih (fun kvv hkvv => h kvv (List.mem_cons_of_mem kv0 hkvv)) kv h1

theorem countOf_bumpFirst_eq (k : String) :
    ∀ (s : Staging), PaperIdsMatch s → ∀ n : Nat, countOf s k = some n →
      countOf (bumpFirst k s) k = some (n + 1) := by
  intro s
  induction s with
  | nil => intro _ n h; simp [countOf, stagingLookup] at h
  | cons kv rest ih =>
    intro hids n h
    have hid := hids kv (List.mem_cons_self kv rest)
    rw [countOf_cons] at h
    by_cases hk : kv.1 = k
    · have hpid : kv.2.paper.id = k := by rw [hid, hk]
      unfold bumpFirst
      rw [if_pos hpid, countOf_cons, if_pos hk]
      rw [if_pos hk] at h
      simp at h ⊢
      omega
    · have hpid : kv.2.paper.id ≠ k := by rw [hid]; exact hk
      unfold bumpFirst
      rw [if_neg hpid, countOf_cons, if_neg hk]
      rw [if_neg hk] at h
      exact ih (fun kvv hkvv => hids kvv (List.mem_cons_of_mem kv hkvv)) n h

theorem countOf_bumpFirst_ne (rid k : String) (hne : rid ≠ k) :
    ∀ (s : Staging), PaperIdsMatch s →
      countOf (bumpFirst rid s) k = countOf s k := by
  intro s
  induction s with
  | nil => intro _; rfl
  | cons kv rest ih =>
    intro hids
    have hid := hids kv (List.mem_cons_self kv rest)
    unfold bumpFirst
    by_cases h0 : kv.2.paper.id = rid
    · rw [if_pos h0, countOf_cons, countOf_cons]
      have hkne : kv.1 ≠ k := by rw [← hid, h0]; exact hne
      rw [if_neg hkne, if_neg hkne]
    · rw [if_neg h0, countOf_cons, countOf_cons]
      by_cases h1 : kv.1 = k
      · rw [if_pos h1, if_pos h1]
      · rw [if_neg h1, if_neg h1]
        exact ih (fun kvv hkvv => hids kvv (List.mem_cons_of_mem kv hkvv))

theorem countOf_applyIncrements (k : String) (refs : List ProtoPaper) :
    ∀ (s : Staging), PaperIdsMatch s → ∀ n : Nat, countOf s k = some n →
      countOf (applyIncrements s refs) k
        = some (n + (refs.filter (fun r => r.id = some k)).length) := by
  induction refs with
  | nil => intro s _ n h; simpa using h
  | cons r rest ih =>
    intro s hids n h
    rw [applyIncrements_cons]
    cases hr : r.id with
    | none =>
      simp only [hr]
      rw [ih s hids n h]
      simp [List.filter_cons, hr]
    | some rid =>
      simp only [hr]
      by_cases hrk : rid = k
      · subst hrk
        have h2 := countOf_bumpFirst_eq rid s hids n h
        have hids2 := paperIdsMatch_bumpFirst rid s hids
        rw [ih (bumpFirst rid s) hids2 (n + 1) h2]
        simp [List.filter_cons, hr]
        omega
      · have h2 : countOf (bumpFirst rid s) k = countOf s k :=
          countOf_bumpFirst_ne rid k hrk s hids
        have hids2 := paperIdsMatch_bumpFirst rid s hids
        rw [ih (bumpFirst rid s) hids2 n (by rw [h2]; exact h)]
        have hfil : ((r :: rest).filter (fun rr => rr.id = some k))
            = rest.filter (fun rr => rr.id = some k) := by
          simp [List.filter_cons, hr, hrk]
        rw [hfil]

/-- C7: seeding the staging map with `{A, B}` (giving each
`citation_count = 1`) and then accumulating a round of fetched records
whose reference lists name `A`'s id exactly twice — in any distribution
across the records — and never name `B`'s id (the `Extend` followed by
the reference-increment loop) leaves `A` at count 3 (raised by exactly
2) and `B` unchanged at 1. -/
theorem accumulate_raises_signal_by_citations
    (A B : Paper) (recs : List Paper)
    (hAB : A.id ≠ B.id)
    (hA : ((recs.flatMap (fun p => p.references)).filter
        (fun r => r.id = some A.id)).length = 2)
    (hB : ((recs.flatMap (fun p => p.references)).filter
        (fun r => r.id = some B.id)).length = 0) :
    countOf (stagingExtend ([] : Staging) [A, B]) A.id = some 1 ∧
    countOf (stagingExtend ([] : Staging) [A, B]) B.id = some 1 ∧
    countOf (applyIncrements (stagingExtend (stagingExtend ([] : Staging) [A, B]) recs)
        (recs.flatMap (fun p => p.references))) A.id = some 3 ∧
    countOf (applyIncrements (stagingExtend (stagingExtend ([] : Staging) [A, B]) recs)
        (recs.flatMap (fun p => p.references))) B.id = some 1 := by
  have hs1 : stagingExtend ([] : Staging) [A] = stagingInsertPaper ([] : Staging) A := rfl
  have hA1 : countOf (stagingInsertPaper ([] : Staging) A) A.id = some 1 :=
    countOf_insertPaper_fresh ([] : Staging) A rfl
  have hlookup : stagingLookup (stagingInsertPaper ([] : Staging) A) B.id = none := by
    have h := stagingLookup_insert ([] : Staging) A.id B.id
      { citation_count := 1, paper := A }
    unfold stagingInsertPaper
    rw [show stagingLookup ([] : Staging) A.id = none from rfl]
    rw [stagingLookup_insert, if_neg (Ne.symm hAB)]
    rfl
  have hs0A : countOf (stagingExtend ([] : Staging) [A, B]) A.id = some 1 := by
    rw [show stagingExtend ([] : Staging) [A, B]
        = stagingInsertPaper (stagingInsertPaper ([] : Staging) A) B from rfl]
    rw [countOf_insertPaper_of_ne _ B A.id (Ne.symm hAB)]
    exact hA1
  have hs0B : countOf (stagingExtend ([] : Staging) [A, B]) B.id = some 1 := by
    rw [show stagingExtend ([] : Staging) [A, B]
        = stagingInsertPaper (stagingInsertPaper ([] : Staging) A) B from rfl]
    exact countOf_insertPaper_fresh _ B hlookup
  have hids0 : PaperIdsMatch (stagingExtend ([] : Staging) [A, B]) :=
    paperIdsMatch_extend [A, B] ([] : Staging) (fun kv hkv => by simp at hkv)
  have hextA : countOf (stagingExtend (stagingExtend ([] : Staging) [A, B]) recs) A.id
      = some 1 := countOf_extend_of_one recs _ A.id hs0A
  have hextB : countOf (stagingExtend (stagingExtend ([] : Staging) [A, B]) recs) B.id
      = some 1 := countOf_extend_of_one recs _ B.id hs0B
  have hids1 : PaperIdsMatch (stagingExtend (stagingExtend ([] : Staging) [A, B]) recs) :=
    paperIdsMatch_extend recs _ hids0
  refine ⟨hs0A, hs0B, ?_, ?_⟩
  · rw [countOf_applyIncrements A.id _ _ hids1 1 hextA, hA]
  · rw [countOf_applyIncrements B.id _ _ hids1 1 hextB, hB]

/-- Concrete papers for the accumulate witness. -/
def paperA : Paper := { title := "tA", url := "uA", id := "A", references := [] }

/-- Concrete papers for the accumulate witness. -/
def paperB : Paper := { title := "tB", url := "uB", id := "B", references := [] }

/-- A fetched record referencing `A` once. -/
def paperC : Paper :=
  { title := "tC", url := "uC", id := "C",
    references := [{ id := some "A", title := "tA", url := some "uA" }] }

/-- Another fetched record referencing `A` once. -/
def paperD : Paper :=
  { title := "tD", url := "uD", id := "D",
    references := [{ id := some "A", title := "tA", url := some "uA" }] }

/-- Witness for `accumulate_raises_signal_by_citations` with the two
`A` references distributed across two distinct fetched records. -/
theorem accumulate_raises_signal_witness :
    paperA.id ≠ paperB.id ∧
    countOf (applyIncrements
        (stagingExtend (stagingExtend ([] : Staging) [paperA, paperB]) [paperC, paperD])
        (([paperC, paperD]).flatMap (fun p => p.references))) paperA.id = some 3 ∧
    countOf (applyIncrements
        (stagingExtend (stagingExtend ([] : Staging) [paperA, paperB]) [paperC, paperD])
        (([paperC, paperD]).flatMap (fun p => p.references))) paperB.id = some 1 := by
  have h := accumulate_raises_signal_by_citations paperA paperB [paperC, paperD]
    (by decide) (by decide) (by decide)
  exact ⟨by decide, h.2.2.1, h.2.2.2⟩

theorem crawlRound_staging (f : List String → List Paper) (t : Nat) (st : CrawlState) :
    (crawlRound f t st).staging =
      applyIncrements (stagingExtend (crawlKept t st) (crawlNew f t st))
        ((crawlNew f t st).flatMap (fun q => q.references)) := rfl

theorem stagingKeys_filter_subset (P : (String × StagingData) → Bool) (s : Staging)
    (p : String) (h : p ∈ stagingKeys (s.filter P)) : p ∈ stagingKeys s := by
  unfold stagingKeys at h ⊢
  obtain ⟨kv, hkv, hp⟩ := List.mem_map.mp h
  exact List.mem_map.mpr ⟨kv, List.mem_of_mem_filter hkv, hp⟩

theorem nodup_keys_filter (P : (String × StagingData) → Bool) (s : Staging)
    (h : (stagingKeys s).Nodup) : (stagingKeys (s.filter P)).Nodup := by
  unfold stagingKeys at h ⊢
  exact List.Nodup.sublist (List.Sublist.map _ (List.filter_sublist s)) h

theorem selectedIds_subset_keys (t : Nat) (s : Staging) (p : String)
    (h : p ∈ selectedIds t s) : p ∈ stagingKeys s := by
  unfold selectedIds at h
  obtain ⟨kv, hkv, hp⟩ := List.mem_map.mp h
  unfold stagingKeys
  exact List.mem_map.mpr ⟨kv, List.mem_of_mem_filter hkv, hp⟩

theorem mem_crawlNew_id_ne (f : List String → List Paper) (t : Nat) (st : CrawlState)
    (p : String) (hfetch : ∀ ids, ∀ q ∈ f ids, q.id ≠ p) :
    ∀ q ∈ crawlNew f t st, q.id ≠ p := by
  intro q hq
  unfold crawlNew at hq
  by_cases hb : (crawlBatched t st).isEmpty
  · rw [if_pos hb] at hq
    simp at hq
  · rw [if_neg hb] at hq
    exact hfetch _ q hq

theorem not_mem_keys_crawlRound (f : List String → List Paper) (t : Nat)
    (st : CrawlState) (p : String)
    (hfetch : ∀ ids, ∀ q ∈ f ids, q.id ≠ p)
    (hkept : p ∉ stagingKeys (crawlKept t st)) :
    p ∉ stagingKeys ((crawlRound f t st).staging) := by
  intro hmem
  rw [crawlRound_staging, stagingKeys_applyIncrements] at hmem
  rcases stagingKeys_mem_extend (crawlNew f t st) (crawlKept t st) p hmem with h1 | h1
  · exact hkept h1
  · obtain ⟨q, hq, hqp⟩ := h1
    exact mem_crawlNew_id_ne f t st p hfetch q hq hqp

theorem nodup_keys_crawlRound (f : List String → List Paper) (t : Nat) (st : CrawlState)
    (h : (stagingKeys st.staging).Nodup) :
    (stagingKeys ((crawlRound f t st).staging)).Nodup := by
  rw [crawlRound_staging, stagingKeys_applyIncrements]
  exact nodup_keys_extend _ _ (nodup_keys_filter _ _ h)

theorem nodup_keys_crawlUpTo (fetch : Nat → List String → List Paper)
    (mc : Nat → Nat) (seeds : List Paper) :
    ∀ d : Nat, (stagingKeys ((crawlUpTo fetch mc d (seedState seeds)).staging)).Nodup := by
  intro d
  induction d with
  | zero =>
    exact nodup_keys_extend seeds ([] : Staging) List.nodup_nil
  | succ d ih =>
    exact nodup_keys_crawlRound _ _ _ ih

theorem stagingKeys_cons (kv : String × StagingData) (s : Staging) :
    stagingKeys (kv :: s) = kv.1 :: stagingKeys s := rfl

theorem not_mem_kept_of_selected (t : Nat) :
    ∀ (s : Staging), (stagingKeys s).Nodup → ∀ p, p ∈ selectedIds t s →
      p ∉ stagingKeys (s.filter (fun kv => kv.2.citation_count < t)) := by
  intro s
  induction s with
  | nil => intro _ p hp; simp [selectedIds] at hp
  | cons kv rest ih =>
    intro hnd p hp hmem
    have hndtail : (stagingKeys rest).Nodup := by
      rw [stagingKeys_cons] at hnd
      exact (List.nodup_cons.mp hnd).2
    have hhead : kv.1 ∉ stagingKeys rest := by
      rw [stagingKeys_cons] at hnd
      exact (List.nodup_cons.mp hnd).1
    by_cases hc : kv.2.citation_count < t
    · have hp' : p ∈ selectedIds t rest := by
        unfold selectedIds at hp ⊢
        rw [List.filter_cons, if_neg (by simp [hc])] at hp
        exact hp
      have hmem' : p = kv.1 ∨
          p ∈ stagingKeys (rest.filter (fun kv => kv.2.citation_count < t)) := by
        rw [List.filter_cons, if_pos (by simp [hc]), stagingKeys_cons] at hmem
        exact List.mem_cons.mp hmem
      rcases hmem' with h1 | h1
      · exact hhead (h1 ▸ selectedIds_subset_keys t rest p hp')
      · exact ih hndtail p hp' h1
    · have hmem' : p ∈ stagingKeys (rest.filter (fun kv => kv.2.citation_count < t)) := by
        rw [List.filter_cons, if_neg (by simp [hc])] at hmem
        exact hmem
      by_cases hp1 : p = kv.1
      · exact hhead (hp1 ▸ stagingKeys_filter_subset _ rest p hmem')
      · have hp' : p ∈ selectedIds t rest := by
          unfold selectedIds at hp ⊢
          rw [List.filter_cons, if_pos (by simp [hc])] at hp
          rcases List.mem_cons.mp hp with h1 | h1
          · exact absurd h1 hp1
          · exact h1
        exact ih hndtail p hp' hmem'

/-- C1 (amended): once an id is selected for expansion in round `d` it
is removed from staging and — provided no fetch at round `d` or later
returns a record carrying that id — it never appears in the selected
set of any later round; fetches before round `d` are unconstrained, so
this covers ids that themselves entered the frontier through an
earlier fetch. The caveat is necessary because
`staging.extend(new_papers)` re-inserts any fetched record
unconditionally, so a re-fetched id (for example via self-citation or
a citation cycle) can be selected again. -/
theorem expansion_one_shot_unless_refetched :
    ∀ (fetch : Nat → List String → List Paper) (mc : Nat → Nat) (seeds : List Paper)
      (p : String) (d e : Nat),
      (∀ r ids, d ≤ r → ∀ q ∈ fetch r ids, q.id ≠ p) →
      d < e →
      p ∈ selectedIds (mc d) ((crawlUpTo fetch mc d (seedState seeds)).staging) →
      p ∉ selectedIds (mc e) ((crawlUpTo fetch mc e (seedState seeds)).staging) := by
  intro fetch mc seeds p d e hfetch hde hsel
  have hnodup := nodup_keys_crawlUpTo fetch mc seeds d
  have hkept : p ∉ stagingKeys
      (crawlKept (mc d) (crawlUpTo fetch mc d (seedState seeds))) := by
    unfold crawlKept
    exact not_mem_kept_of_selected (mc d) _ hnodup p hsel
  have hstep : p ∉ stagingKeys ((crawlUpTo fetch mc (d + 1) (seedState seeds)).staging) :=
    not_mem_keys_crawlRound (fetch d) (mc d) _ p (fun ids => hfetch d ids (le_refl d)) hkept
  have hall : ∀ m : Nat,
      p ∉ stagingKeys ((crawlUpTo fetch mc (d + 1 + m) (seedState seeds)).staging) := by
    intro m
    induction m with
    | zero => exact hstep
    | succ m ihm =>
      have heq : d + 1 + (m + 1) = (d + 1 + m) + 1 := by omega
      rw [heq]
      have hnotkept : p ∉ stagingKeys
          (crawlKept (mc (d + 1 + m)) (crawlUpTo fetch mc (d + 1 + m) (seedState seeds))) := by
        intro hmem
        exact ihm (stagingKeys_filter_subset _ _ p hmem)
      have hdr : d ≤ d + 1 + m := by omega
      exact not_mem_keys_crawlRound (fetch (d + 1 + m)) (mc (d + 1 + m)) _ p
        (fun ids => hfetch (d + 1 + m) ids hdr) hnotkept
  intro hsel_e
  have heq : d + 1 + (e - d - 1) = e := by omega
  apply hall (e - d - 1)
  rw [heq]
  exact selectedIds_subset_keys (mc e) _ p hsel_e

/-- A seed paper with a single (non-self) reference, used in the
one-shot-expansion witness. -/
def paperLinear : Paper :=
  { title := "tq", url := "uq", id := "q1",
    references := [ { id := some "q2", title := "tq2", url := none } ] }

/-- Witness for `expansion_one_shot_unless_refetched`: with a fetch
oracle that never returns records, the id `q1` is selected in round 0
and absent from the selected set of round 1. -/
theorem expansion_one_shot_witness :
    "q1" ∈ selectedIds ((fun _ : Nat => 1) 0)
      ((crawlUpTo (fun _ _ => []) (fun _ => 1) 0 (seedState [paperLinear])).staging) ∧
    "q1" ∉ selectedIds ((fun _ : Nat => 1) 1)
      ((crawlUpTo (fun _ _ => []) (fun _ => 1) 1 (seedState [paperLinear])).staging) := by
  refine ⟨by decide, ?_⟩
  exact expansion_one_shot_unless_refetched (fun _ _ => []) (fun _ => 1) [paperLinear] "q1"
    0 1 (by intro r ids _ q hq; simp at hq) (by omega) (by decide)

theorem crawlRound_paper_list (f : List String → List Paper) (t : Nat) (st : CrawlState) :
    (crawlRound f t st).paper_list =
      st.paper_list ∪
        ((crawlSelected t st).flatMap (fun kv =>
          kv.2.paper.references.filter (fun r => r.id.isSome))).toFinset := rfl

theorem paper_list_ids_present (fetch : Nat → List String → List Paper) (mc : Nat → Nat)
    (seeds : List Paper) :
    ∀ d : Nat, ∀ q ∈ (crawlUpTo fetch mc d (seedState seeds)).paper_list, q.id ≠ none := by
  intro d
  induction d with
  | zero =>
    intro q hq
    have hq' : q ∈ fromStaging (stagingExtend ([] : Staging) seeds) := hq
    unfold fromStaging at hq'
    rw [List.mem_toFinset] at hq'
    obtain ⟨kv, _, hkv⟩ := List.mem_map.mp hq'
    rw [← hkv]
    simp [Paper.toProto]
  | succ d ih =>
    intro q hq
    have hq' : q ∈ (crawlRound (fetch d) (mc d)
        (crawlUpTo fetch mc d (seedState seeds))).paper_list := hq
    rw [crawlRound_paper_list] at hq'
    rcases Finset.mem_union.mp hq' with h | h
    · exact ih q h
    · rw [List.mem_toFinset] at h
      obtain ⟨kv, _, hmem⟩ := List.mem_flatMap.mp h
      have hsome : q.id.isSome := by simpa using List.of_mem_filter hmem
      intro hnone
      rw [hnone] at hsome
      simp at hsome

theorem pruneN_nodes_subset (k : Nat) (g : Graph) : (pruneN k g).nodes ⊆ g.nodes := by
  induction k with
  | zero => exact subset_rfl
  | succ k ih =>
    intro x hx
    exact ih (Finset.filter_subset _ _ hx)

/-- C10: every node ever committed to the graph has a present id — the
seed batch is committed through `From<Paper>` (which always wraps the
required id in `Some`), staged reference stubs are filtered on
`id().is_some()`, and pruning only shrinks the node set — so the
exporter's `paper.id().expect("paper id")` can never panic. -/
theorem committed_nodes_have_ids :
    ∀ (fetch : Nat → List String → List Paper) (mc : Nat → Nat) (d k : Nat)
      (seeds : List Paper) (c : ℝ) (e : Nat),
      (crawlUpTo fetch mc d (seedState seeds)).paper_list.filter
        (fun q => q.id = none) = ∅ ∧
      (pruneN k (graphOfState (crawlUpTo fetch mc d (seedState seeds)))).nodes.filter
        (fun q => q.id = none) = ∅ ∧
      (mainGraph fetch c e seeds).nodes.filter (fun q => q.id = none) = ∅ := by
  intro fetch mc d k seeds c e
  refine ⟨?_, ?_, ?_⟩
  · rw [Finset.filter_eq_empty_iff]
    intro q hq
    exact paper_list_ids_present fetch mc seeds d q hq
  · rw [Finset.filter_eq_empty_iff]
    intro q hq
    exact paper_list_ids_present fetch mc seeds d q (pruneN_nodes_subset k _ hq)
  · rw [Finset.filter_eq_empty_iff]
    intro q hq
    exact paper_list_ids_present fetch (minimumCitations c) seeds e q
      (pruneN_nodes_subset 10 _ hq)
